import Mathlib

/-!
Verification of the RAD (Red Hat Anomaly Detection) module.

The repository has two layers:

* `rad.py` (present in the sources): pandas-based data glue — in particular
  `preprocess` (index setting, column dropping, categorical encoding,
  numeric-column selection) and `preprocess_on` (group-wise chunking).
  These are embedded below over an explicit `DataFrame` model that records
  index name, index labels, and typed columns, mirroring the pandas
  operations the source calls (`set_index`, `drop(axis=1)`,
  `select_dtypes`, `astype("category").cat.codes.astype(float)`,
  `groupby`).  `KeyError`-raising pandas operations are embedded with
  `Except Unit`, and the source's `except KeyError` handlers by matching on
  that result.

* The Isolation Forest core (`c`, `s`, `IsolationTree`, `TreeScore`,
  `IsolationForest`): referenced by the repository's test-suite
  (`from rad.rad import IsolationForest, IsolationTree, TreeScore`) and by
  the specification, but its listing is absent from the sources; only its
  tests and the specification describe it.  Those definitions are modelled
  from the spec, as flagged in their doc comments.  Feature values are
  rationals (the ordered-field operations the tree needs), scores are real
  (the score formula needs `log` and `2 ^ x` for a real `x`), and the
  spec's "explicit random-number generator instance passed into
  construction" is a caller-supplied choice stream.
-/

namespace Rad

/-- Pandas dtype classes that `preprocess` distinguishes: numeric
(`np.number`), `object`, `bool`, and the remaining non-numeric dtypes such
as `datetime` (removed by the final `select_dtypes(include=np.number)`). -/
inductive Dtype where
  | num
  | obj
  | boolean
  | datetime
  deriving DecidableEq

/-- A cell value of a DataFrame: a number, a string, a boolean, or a
missing value (NaN). -/
inductive Val where
  | vnum (q : ℚ)
  | vstr (s : String)
  | vbool (b : Bool)
  | vna
  deriving DecidableEq

/-- One named, typed pandas column. -/
structure Column where
  name : String
  dtype : Dtype
  values : List Val
  deriving DecidableEq

/-- A pandas DataFrame: an (optionally named) row index plus columns.  The
number of rows of a frame is the length of its index, as in pandas
(`len(frame) == len(frame.index)`). -/
structure DataFrame where
  idxName : Option String
  idx : List Val
  cols : List Column
  deriving DecidableEq

/-- The empty frame `pd.DataFrame()` returned by `preprocess` when it
catches a `KeyError` (rad.py line 233). -/
def DataFrame.empty : DataFrame := ⟨none, [], []⟩

/-- Column names of a frame, in order. -/
def DataFrame.colNames (f : DataFrame) : List String := f.cols.map (fun cl => cl.name)

/-- Look up a column by name. -/
def DataFrame.getCol (f : DataFrame) (n : String) : Option Column :=
  f.cols.find? (fun cl => decide (cl.name = n))

/-- Row count of a frame: `len(frame)` in pandas is the length of the index. -/
def DataFrame.nrows (f : DataFrame) : ℕ := f.idx.length

/-- Well-formedness of a frame: every column holds one value per index
label (pandas maintains this alignment invariant). -/
def WF (f : DataFrame) : Prop := ∀ cl ∈ f.cols, cl.values.length = f.idx.length

/-- Pandas `df.set_index(names, inplace=True)` (rad.py line 208): every
name must be an existing column, else the operation raises `KeyError`
before modifying anything; on success the named columns are removed from
the columns and become the index (the first name gives the index name and
labels; for a multi-name list the lengths of all the zipped levels agree,
so only the first level is kept as the label list). -/
def setIndex (names : List String) (f : DataFrame) : Except Unit DataFrame :=
  match names with
  | [] => Except.ok f
  | n :: _ =>
    if names.all (fun m => decide (m ∈ f.colNames)) then
      Except.ok ⟨some n, ((f.getCol n).map (fun cl => cl.values)).getD [],
        f.cols.filter (fun cl => decide (cl.name ∉ names))⟩
    else Except.error ()

/-- Pandas `df.drop(names, axis=1, inplace=True)` (rad.py line 212): every
label must be an existing column, else `KeyError`; on success the named
columns are removed. -/
def dropCols (names : List String) (f : DataFrame) : Except Unit DataFrame :=
  if names.all (fun m => decide (m ∈ f.colNames)) then
    Except.ok ⟨f.idxName, f.idx, f.cols.filter (fun cl => decide (cl.name ∉ names))⟩
  else Except.error ()

/-- Deduplication keeping first occurrences, used for category extraction
and group keys.  (Pandas sorts categories and group keys; their order
plays no role in any property proved here, so the first-occurrence order
stands in for it.) -/
def dedupFirst {α : Type} [DecidableEq α] : List α → List α :=
  fun l => l.foldl (fun acc v => if v ∈ acc then acc else acc ++ [v]) []

/-- Categorical encoding of one column (rad.py lines 219 to 224):
`df[column].astype("category")` collects the distinct non-missing values
as categories, `cat.codes.astype(float)` replaces each cell by its
category code as a float (missing values code to -1), and the returned
mapping pairs each category with its code. -/
def encodeCol (cl : Column) : Column × List (Val × ℕ) :=
  let cats := dedupFirst (cl.values.filter (fun v => decide (v ≠ Val.vna)))
  (⟨cl.name, Dtype.num,
      cl.values.map (fun v =>
        if v = Val.vna then Val.vnum (-1) else Val.vnum ((cats.indexOf v : ℕ) : ℚ))⟩,
    cats.zip (List.range cats.length))

/-- Columns picked by `df.select_dtypes(include=(object, bool))`
(rad.py line 216). -/
def isNonNum (d : Dtype) : Bool := decide (d = Dtype.obj) || decide (d = Dtype.boolean)

/-- Mappings returned by `preprocess`: column name to category-code table. -/
abbrev Mappings := List (String × List (Val × ℕ))

/-- The encoding loop of `preprocess` (rad.py lines 215 to 224): every
`object`/`bool` column is overwritten by its float category codes and
contributes an entry to `mappings`; other columns are untouched. -/
def encodeFrame (f : DataFrame) : DataFrame × Mappings :=
  (⟨f.idxName, f.idx, f.cols.map (fun cl => if isNonNum cl.dtype then (encodeCol cl).1 else cl)⟩,
    (f.cols.filter (fun cl => isNonNum cl.dtype)).map (fun cl => (cl.name, (encodeCol cl).2)))

/-- Pandas `df.select_dtypes(include=np.number)` (rad.py line 227): keep
only the numeric columns. -/
def selectNumericCols (f : DataFrame) : DataFrame :=
  ⟨f.idxName, f.idx, f.cols.filter (fun cl => decide (cl.dtype = Dtype.num))⟩

/-- The index-setting step of `preprocess` (rad.py lines 207 to 208):
skipped when `index` is `None`. -/
def step1 (index : Option (List String)) (f : DataFrame) : Except Unit DataFrame :=
  match index with
  | none => Except.ok f
  | some ix => setIndex ix f

/-- The column-dropping step of `preprocess` (rad.py lines 211 to 212):
skipped when `drop` is `None`. -/
def step2 (drop : Option (List String)) (f : DataFrame) : Except Unit DataFrame :=
  match drop with
  | none => Except.ok f
  | some ds => dropCols ds f

/-- The `try` block of `preprocess` (rad.py lines 205 to 230): optionally
set the index, optionally drop columns (either step may raise `KeyError`),
then encode the `object`/`bool` columns and keep the numeric columns. -/
def preprocessBody (frame : DataFrame) (index drop : Option (List String)) :
    Except Unit (DataFrame × Mappings) :=
  match step1 index frame with
  | Except.error e => Except.error e
  | Except.ok df1 =>
    match step2 drop df1 with
    | Except.error e => Except.error e
    | Except.ok df2 =>
      Except.ok (selectNumericCols (encodeFrame df2).1, (encodeFrame df2).2)

/-- `rad.preprocess` (rad.py lines 187 to 233): runs the body and, on
`KeyError`, logs and returns `(pd.DataFrame(), {})` — the `except KeyError`
handler at lines 231 to 233. -/
def preprocess (frame : DataFrame) (index drop : Option (List String)) :
    DataFrame × Mappings :=
  match preprocessBody frame index drop with
  | Except.ok r => r
  | Except.error _ => (DataFrame.empty, [])

/-- The caller's `frame` as it stands after `preprocess(frame, index, drop)`
returns, following pandas aliasing semantics.  `df = pd.DataFrame(frame)`
(rad.py line 203) does NOT copy: with the default `copy=False` the new
object wraps the caller's own block manager.  Consequences, operation by
operation:

* `df.set_index(index, inplace=True)` deletes the index columns and
  replaces the axis through the shared manager, so the caller's frame
  changes too; with an invalid name it raises `KeyError` before touching
  anything, so the caller's frame is untouched on that path.
* `df.drop(drop, axis=1, inplace=True)` goes through pandas
  `_update_inplace`, which REBINDS the local `df` to a freshly built
  manager; `df` is unlinked from the caller from that point on (whether
  the drop succeeds or raises `KeyError`, nothing further reaches the
  caller).
* the encoding loop's whole-column assignments `df[column] = ...` write
  through the manager, so while `df` is still linked (no `drop` argument)
  they overwrite the caller's `object`/`bool` columns with float codes.
* `df = df.select_dtypes(...)` only rebinds the local name.
-/
def preprocessCallerAfter (frame : DataFrame) (index drop : Option (List String)) :
    DataFrame :=
  match index with
  | some ix =>
    match setIndex ix frame with
    | Except.error _ => frame
    | Except.ok f1 =>
      match drop with
      | some _ => f1
      | none => (encodeFrame f1).1
  | none =>
    match drop with
    | some _ => frame
    | none => (encodeFrame frame).1

/-- Keep the entries of a list whose positions are marked `true` in the
mask; the row-selection primitive behind `groupby` chunking. -/
def maskFilter {α : Type} : List Bool → List α → List α
  | true :: m, x :: l => x :: maskFilter m l
  | false :: m, _ :: l => maskFilter m l
  | _, _ => []

/-- Restrict a frame to the rows selected by a boolean mask (index labels
and every column are filtered in lockstep, as pandas row selection does). -/
def filterRows (f : DataFrame) (mask : List Bool) : DataFrame :=
  ⟨f.idxName, maskFilter mask f.idx,
    f.cols.map (fun cl => ⟨cl.name, cl.dtype, maskFilter mask cl.values⟩)⟩

/-- The values `data.groupby(on)` groups by: the column named `on` when it
exists, else the index when `on` is the index level name; otherwise
`groupby` raises `KeyError` (modelled as `none`). -/
def onColValues (f : DataFrame) (key : String) : Option (List Val) :=
  match f.getCol key with
  | some cl => some cl.values
  | none => if f.idxName = some key then some f.idx else none

/-- Whether `on` names an existing column or index level of the frame. -/
def onValid (f : DataFrame) (key : String) : Bool := (onColValues f key).isSome

/-- The chunks produced by `data.groupby(on)`: one sub-frame per distinct
value of the grouped values, holding exactly the rows carrying that
value. -/
def groupChunks (f : DataFrame) (cv : List Val) : List DataFrame :=
  (dedupFirst cv).map (fun k => filterRows f (cv.map (fun v => decide (v = k))))

/-- The index passed to each per-chunk `preprocess` call: `preprocess_on`
rebinds `index = on` when the caller gave no index (rad.py lines 263 to
264). -/
def effIndex (key : String) (index : Option (List String)) : Option (List String) :=
  match index with
  | none => some [key]
  | some ix => some ix

/-- `rad.preprocess_on` (rad.py lines 236 to 272): group the frame on
`on`; for each group of strictly more than `min_records` rows, run
`preprocess` on it (with `index` defaulting to `on`, lines 263 to 264) and
collect the `(chunk, mapping)` pairs, in group order.  When `groupby`
raises `KeyError` (no such column or index level) the handler at lines 271
to 272 logs and the function falls off its end, returning `None`. -/
def preprocess_on (frame : DataFrame) (key : String) (min_records : ℕ)
    (index drop : Option (List String)) : Option (List (DataFrame × Mappings)) :=
  match onColValues frame key with
  | none => none
  | some cv =>
    some ((groupChunks frame cv).filterMap (fun ch =>
      if min_records < ch.nrows then
        some (preprocess ch (effIndex key index) drop)
      else none))

/-- Decidability of frame well-formedness, so concrete frames can be
checked by evaluation. -/
instance decWF (f : DataFrame) : Decidable (WF f) :=
  inferInstanceAs (Decidable (∀ cl ∈ f.cols, cl.values.length = f.idx.length))

/-- A purely numeric two-row frame with the single column "0", as built by
the unit test `TestPreprocess.setUp`. -/
def exNumFrame : DataFrame :=
  ⟨none, [Val.vnum 0, Val.vnum 1], [⟨"0", Dtype.num, [Val.vnum 1, Val.vnum 2]⟩]⟩

/-- A one-row frame with a single string column "a". -/
def exStrFrame : DataFrame :=
  ⟨none, [Val.vnum 0], [⟨"a", Dtype.obj, [Val.vstr "x"]⟩]⟩

/-- A two-row frame with a string group column "g" (both rows in group
"a") and a numeric column "x". -/
def exGroupFrame : DataFrame :=
  ⟨none, [Val.vnum 0, Val.vnum 1],
    [⟨"g", Dtype.obj, [Val.vstr "a", Val.vstr "a"]⟩,
     ⟨"x", Dtype.num, [Val.vnum 1, Val.vnum 2]⟩]⟩

/-- C1: calling `preprocess` with an `index` naming a column absent from
the frame does raise `KeyError` inside the `try` block (the body errors),
but the `except KeyError` handler at rad.py lines 231 to 233 swallows it
and returns the substitute value `(pd.DataFrame(), {})` instead of
propagating it to the caller — contradicting the unit test
`test_invalid_column_as_index_raises_keyerror`, which asserts the
`KeyError` reaches the caller. -/
theorem preprocess_swallows_keyerror :
    preprocessBody exNumFrame (some ["invalid"]) none = Except.error () ∧
    preprocess exNumFrame (some ["invalid"]) none = (DataFrame.empty, []) :=
  ⟨rfl, rfl⟩

/-- All first components a `preprocess` call can return: the empty-frame
fallback of the `except KeyError` handler, or the numeric selection of
some encoded frame. -/
lemma preprocess_fst_shape (frame : DataFrame) (index drop : Option (List String)) :
    (preprocess frame index drop).1 = DataFrame.empty ∨
    ∃ g, (preprocess frame index drop).1 = selectNumericCols g := by
  unfold preprocess
  cases hb : preprocessBody frame index drop with
  | error e => left; rfl
  | ok r =>
    right
    unfold preprocessBody at hb
    cases h1 : step1 index frame with
    | error e => rw [h1] at hb; exact absurd hb (by simp)
    | ok df1 =>
      rw [h1] at hb
      dsimp only at hb
      cases h2 : step2 drop df1 with
      | error e => rw [h2] at hb; exact absurd hb (by simp)
      | ok df2 =>
        rw [h2] at hb
        dsimp only at hb
        injection hb with hb
        exact ⟨(encodeFrame df2).1, by rw [← hb]⟩

/-- C2: for every input DataFrame (and any `index`/`drop` arguments), the
frame returned by `preprocess` is purely numeric — every one of its
columns has the numeric dtype, non-numeric columns having been
categorically encoded to floats or removed by the final
`select_dtypes(include=np.number)`. -/
theorem preprocess_returns_numeric :
    ∀ (frame : DataFrame) (index drop : Option (List String)),
      ∀ cl ∈ (preprocess frame index drop).1.cols, cl.dtype = Dtype.num := by
  intro frame index drop cl hcl
  rcases preprocess_fst_shape frame index drop with h | ⟨g, h⟩
  · rw [h] at hcl
    exact absurd hcl (by simp [DataFrame.empty])
  · rw [h] at hcl
    simp only [selectNumericCols, List.mem_filter] at hcl
    exact of_decide_eq_true hcl.2

/-- C2 witness: the single column returned for the concrete string frame
is numeric. -/
theorem preprocess_returns_numeric_witness :
    (⟨"a", Dtype.num, [Val.vnum 0]⟩ : Column) ∈ (preprocess exStrFrame none none).1.cols ∧
    (⟨"a", Dtype.num, [Val.vnum 0]⟩ : Column).dtype = Dtype.num :=
  ⟨by decide, preprocess_returns_numeric exStrFrame none none _ (by decide)⟩

/-- C9: `preprocess` does mutate its caller's frame.  `pd.DataFrame(frame)`
with the default `copy=False` shares the caller's block manager, so with
the default arguments the categorical-encoding assignments overwrite the
caller's `object` column with float codes: on a frame with the single
string column "a" = ["x"], after `preprocess(frame)` the caller holds a
float column [0.0] — not its original data, contradicting the source's own
comment "copy the frame so the original is not overwritten"
(rad.py line 202). -/
theorem preprocess_mutates_caller :
    preprocessCallerAfter exStrFrame none none ≠ exStrFrame ∧
    preprocessCallerAfter exStrFrame none none =
      ⟨none, [Val.vnum 0], [⟨"a", Dtype.num, [Val.vnum 0]⟩]⟩ :=
  ⟨by decide, by decide⟩

/-- Filtering two lists of equal length by the same mask keeps the lengths
equal. -/
lemma maskFilter_length_congr {α β : Type} (m : List Bool) (l1 : List α) (l2 : List β)
    (h : l1.length = l2.length) : (maskFilter m l1).length = (maskFilter m l2).length := by
  induction m generalizing l1 l2 with
  | nil => simp [maskFilter]
  | cons b m ih =>
    cases l1 with
    | nil =>
      cases l2 with
      | nil => cases b <;> rfl
      | cons y ys => simp at h
    | cons x xs =>
      cases l2 with
      | nil => simp at h
      | cons y ys =>
        cases b <;> simp [maskFilter, ih xs ys (by simpa using h)]

/-- Row filtering preserves the column/index alignment invariant. -/
lemma WF_filterRows {f : DataFrame} (mask : List Bool) (h : WF f) :
    WF (filterRows f mask) := by
  intro cl hcl
  simp only [filterRows, List.mem_map] at hcl
  obtain ⟨c0, hc0, rfl⟩ := hcl
  exact maskFilter_length_congr mask c0.values f.idx (h c0 hc0)

/-- A successful `set_index` does not change the row count of a
well-formed frame: the new index labels are the values of an existing
column, which holds one value per old index label. -/
lemma setIndex_nrows {names : List String} {f g : DataFrame} (hwf : WF f)
    (h : setIndex names f = Except.ok g) : g.nrows = f.nrows := by
  cases names with
  | nil =>
    unfold setIndex at h
    injection h with h
    rw [← h]
  | cons n rest =>
    unfold setIndex at h
    dsimp only at h
    by_cases hc : ((n :: rest).all (fun m => decide (m ∈ f.colNames))) = true
    · rw [if_pos hc] at h
      injection h with h
      obtain ⟨c0, hc0mem, hc0name⟩ : ∃ c0 ∈ f.cols, c0.name = n := by
        have hn : n ∈ f.colNames := by
          have := List.all_eq_true.mp hc n (by simp)
          simpa using this
        simpa [DataFrame.colNames, List.mem_map] using hn
      cases hfind : f.getCol n with
      | none =>
        exfalso
        have hnone := List.find?_eq_none.mp hfind c0 hc0mem
        simp [hc0name] at hnone
      | some c =>
        have hcmem : c ∈ f.cols := List.mem_of_find?_eq_some hfind
        rw [← h]
        simp only [DataFrame.nrows, DataFrame.getCol] at hfind ⊢
        rw [hfind]
        simp only [Option.map_some', Option.getD_some]
        exact hwf c hcmem
    · rw [if_neg hc] at h
      exact absurd h (by simp)

/-- A successful `drop(axis=1)` does not change the row count. -/
lemma dropCols_nrows {names : List String} {f g : DataFrame}
    (h : dropCols names f = Except.ok g) : g.nrows = f.nrows := by
  unfold dropCols at h
  split at h
  · injection h with h
    rw [← h]
    rfl
  · exact absurd h (by simp)

/-- A successful `preprocess` body preserves the row count of a
well-formed frame: only `set_index` touches the index, and it keeps one
label per row. -/
lemma preprocessBody_ok_nrows {f : DataFrame} {index drop : Option (List String)}
    {r : DataFrame × Mappings} (hwf : WF f)
    (h : preprocessBody f index drop = Except.ok r) : r.1.nrows = f.nrows := by
  unfold preprocessBody at h
  cases h1 : step1 index f with
  | error e => rw [h1] at h; exact absurd h (by simp)
  | ok df1 =>
    rw [h1] at h
    dsimp only at h
    cases h2 : step2 drop df1 with
    | error e => rw [h2] at h; exact absurd h (by simp)
    | ok df2 =>
      rw [h2] at h
      dsimp only at h
      injection h with h
      have e1 : df1.nrows = f.nrows := by
        unfold step1 at h1
        cases index with
        | none => injection h1 with h1; rw [← h1]
        | some ix => exact setIndex_nrows hwf h1
      have e2 : df2.nrows = df1.nrows := by
        unfold step2 at h2
        cases drop with
        | none => injection h2 with h2; rw [← h2]
        | some ds => exact dropCols_nrows h2
      rw [← h]
      simpa [selectNumericCols, encodeFrame, DataFrame.nrows] using e2.trans e1

/-- The first component of any `preprocess` call on a well-formed frame:
either the row count is preserved, or the `KeyError` fallback returned the
empty frame. -/
lemma preprocess_nrows_or_empty {f : DataFrame} (hwf : WF f)
    (index drop : Option (List String)) :
    (preprocess f index drop).1.nrows = f.nrows ∨
    (preprocess f index drop).1 = DataFrame.empty := by
  unfold preprocess
  cases hb : preprocessBody f index drop with
  | error e => right; rfl
  | ok r => left; exact preprocessBody_ok_nrows hwf hb

/-- C10 (amended): an `on` key naming no column or index level makes
`preprocess_on` return `None` (the `except KeyError` handler logs and
falls off the function end) rather than raise; for a valid `on`, every
returned chunk either has strictly more than `min_records` rows (the
group filter is strict, and a successful per-chunk `preprocess` keeps the
row count) or is the empty frame produced by the per-chunk `preprocess`
`KeyError` fallback. -/
theorem preprocess_on_contract :
    ∀ (frame : DataFrame) (key : String) (minr : ℕ) (index drop : Option (List String)),
      WF frame →
      (onValid frame key = false → preprocess_on frame key minr index drop = none) ∧
      (onValid frame key = true →
        ∃ out, preprocess_on frame key minr index drop = some out ∧
          ∀ p ∈ out, minr < p.1.nrows ∨ p.1 = DataFrame.empty) := by
  intro frame key minr index drop hwf
  cases hcv : onColValues frame key with
  | none =>
    constructor
    · intro _
      unfold preprocess_on
      rw [hcv]
    · intro h
      rw [onValid, hcv] at h
      simp at h
  | some cv =>
    constructor
    · intro h
      rw [onValid, hcv] at h
      simp at h
    · intro _
      refine ⟨_, by unfold preprocess_on; rw [hcv], ?_⟩
      intro p hp
      rw [List.mem_filterMap] at hp
      obtain ⟨ch, hch, hite⟩ := hp
      have hwfch : WF ch := by
        simp only [groupChunks, List.mem_map] at hch
        obtain ⟨k, hk, rfl⟩ := hch
        exact WF_filterRows _ hwf
      split at hite
      · injection hite with hite
        rename_i hlt
        rw [← hite]
        rcases preprocess_nrows_or_empty hwfch (effIndex key index) drop with he | he
        · left
          rw [he]
          exact hlt
        · right
          exact he
      · exact absurd hite (by simp)

/-- C10 counterexample to the claim as stated: `on = "g"` names an
existing column of the frame, yet with `drop = ["bad"]` (a missing label)
and `min_records = 0` the single returned chunk is the empty fallback
frame with 0 rows — not strictly more than `min_records` rows. -/
theorem preprocess_on_returns_empty_chunk :
    preprocess_on exGroupFrame "g" 0 none (some ["bad"]) = some [(DataFrame.empty, [])] ∧
    ¬ 0 < DataFrame.nrows DataFrame.empty :=
  ⟨rfl, by decide⟩

/-- C10 witness: the contract evaluated on the concrete group frame, for
an invalid key "zzz" and for the valid key "g". -/
theorem preprocess_on_contract_witness :
    WF exGroupFrame ∧
    preprocess_on exGroupFrame "zzz" 0 none none = none ∧
    (∃ out, preprocess_on exGroupFrame "g" 0 none none = some out ∧
      ∀ p ∈ out, 0 < p.1.nrows ∨ p.1 = DataFrame.empty) := by
  have hwf : WF exGroupFrame := by decide
  refine ⟨hwf, ?_, ?_⟩
  · exact (preprocess_on_contract exGroupFrame "zzz" 0 none none hwf).1 (by decide)
  · exact (preprocess_on_contract exGroupFrame "g" 0 none none hwf).2 (by decide)

/-- Modelled from the spec: the Euler–Mascheroni constant γ of the
harmonic-number approximation in section 4.1 (the Isolation Forest core is
absent from the sources; only its tests and the spec describe it), at the
precision the spec states. -/
noncomputable def eulerGamma : ℝ := 0.5772156649

/-- Modelled from the spec: the harmonic-number approximation
`H(m) = ln(m) + γ` of section 4.1. -/
noncomputable def harmonicApprox (m : ℕ) : ℝ := Real.log m + eulerGamma

/-- Modelled from the spec: the value of the path-length normalizer
`c(n)` of section 4.1 for the sizes where it is defined — `0` at `n = 1`
and `2*H(n-1) - 2*(n-1)/n` for `n > 1` — extended by `0` below `1` so the
tail correction of `TreeScore` is total; the `n <= 0` guard lives in `c`
itself. -/
noncomputable def cVal (n : ℕ) : ℝ :=
  if n ≤ 1 then 0 else 2 * harmonicApprox (n - 1) - 2 * ((n : ℝ) - 1) / (n : ℝ)

/-- Modelled from the spec: the path-length normalizer `c(n)` of section
4.1, raising `ValueError` for `n <= 0`. -/
noncomputable def c (n : ℤ) : Except String ℝ :=
  if n ≤ 0 then Except.error "ValueError: n must be greater than 0"
  else Except.ok (cVal n.toNat)

/-- Modelled from the spec: the anomaly score `s(x, n) = 2^(-x / c(n))` of
section 4.2, for an average observed path length `x` and reference sample
size `n`. -/
noncomputable def s (x : ℝ) (n : ℕ) : ℝ := (2 : ℝ) ^ (-(x / cVal n))

/-- Modelled from the spec: a node of an isolation tree (section 3).  An
external node records the `size` of the subset routed to it and its
`depth`; an internal node records the split feature, the split value, its
subset size and depth, and owns exactly two children.  Feature values are
rationals, so trees are fully computable. -/
inductive Node where
  | external (size depth : ℕ)
  | internal (featureIndex : ℕ) (splitValue : ℚ) (size depth : ℕ) (left right : Node)
  deriving DecidableEq

/-- The children of a node: both for an internal node, none for an
external one. -/
def Node.children : Node → List Node
  | Node.external _ _ => []
  | Node.internal _ _ _ _ l r => [l, r]

/-- Whether a node is internal. -/
def Node.isInternal : Node → Bool
  | Node.external _ _ => false
  | Node.internal _ _ _ _ _ _ => true

/-- The recorded depth of a node. -/
def Node.depth : Node → ℕ
  | Node.external _ d => d
  | Node.internal _ _ _ d _ _ => d

/-- All nodes of a tree, root first. -/
def subNodes : Node → List Node
  | Node.external sz d => [Node.external sz d]
  | Node.internal fi v sz d l r =>
    Node.internal fi v sz d l r :: (subNodes l ++ subNodes r)

/-- Number of internal nodes of a tree. -/
def countInternal : Node → ℕ
  | Node.external _ _ => 0
  | Node.internal _ _ _ _ l r => 1 + countInternal l + countInternal r

/-- Number of external nodes of a tree. -/
def countExternal : Node → ℕ
  | Node.external _ _ => 1
  | Node.internal _ _ _ _ l r => countExternal l + countExternal r

/-- Total number of nodes of a tree. -/
def countNodes : Node → ℕ
  | Node.external _ _ => 1
  | Node.internal _ _ _ _ l r => 1 + countNodes l + countNodes r

/-- The values of column `j` over a subset, one per row (absent entries of
ragged rows read as 0). -/
def colVals (D : List (List ℚ)) (j : ℕ) : List ℚ := D.map (fun row => row.getD j 0)

/-- Minimum of column `j` over a subset (0 for an empty subset). -/
def colMin (D : List (List ℚ)) (j : ℕ) : ℚ :=
  match colVals D j with
  | [] => 0
  | x :: xs => xs.foldl min x

/-- Maximum of column `j` over a subset (0 for an empty subset). -/
def colMax (D : List (List ℚ)) (j : ℕ) : ℚ :=
  match colVals D j with
  | [] => 0
  | x :: xs => xs.foldl max x

/-- Number of columns of a subset. -/
def width (D : List (List ℚ)) : ℕ := D.foldr (fun r acc => max r.length acc) 0

/-- Modelled from the spec: the candidate split columns of section 4.3 —
the columns with non-zero value range over the subset. -/
def nonZeroCols (D : List (List ℚ)) : List ℕ :=
  (List.range (width D)).filter (fun j => decide (colMin D j < colMax D j))

/-- Modelled from the spec: the split feature chosen at a node — the
caller-supplied choice stream picks (uniformly, in the spec) among the
columns with non-zero range (section 4.3, step 2). -/
def chosenFeature (ch : List Bool → ℕ × ℚ) (D : List (List ℚ)) (path : List Bool) : ℕ :=
  (nonZeroCols D).getD ((ch path).1 % (nonZeroCols D).length) 0

/-- Modelled from the spec: the split value chosen at a node — drawn
within `[min, max]` of the chosen feature over the subset (section 4.3,
step 2): the choice stream proposes a value and it is clamped into the
interval, so every value of the interval is reachable and no value
outside it is. -/
def chosenSplit (ch : List Bool → ℕ × ℚ) (D : List (List ℚ)) (path : List Bool) : ℚ :=
  max (colMin D (chosenFeature ch D path))
    (min (colMax D (chosenFeature ch D path)) (ch path).2)

/-- Rows strictly below the split value, routed left (section 4.3). -/
def leftRows (ch : List Bool → ℕ × ℚ) (D : List (List ℚ)) (path : List Bool) :
    List (List ℚ) :=
  D.filter (fun row => decide (row.getD (chosenFeature ch D path) 0 < chosenSplit ch D path))

/-- Rows at or above the split value, routed right (section 4.3). -/
def rightRows (ch : List Bool → ℕ × ℚ) (D : List (List ℚ)) (path : List Bool) :
    List (List ℚ) :=
  D.filter (fun row => !decide (row.getD (chosenFeature ch D path) 0 < chosenSplit ch D path))

/-- Modelled from the spec: recursive isolation-tree construction
(section 4.3).  A subset of at most one row, an exhausted depth budget
(`depth >= limit`), or a subset with no non-zero-range column (all rows
identical) terminates in an external node recording the subset size;
otherwise an internal node splits the subset at the chosen feature and
value and recurses into both halves at `depth + 1`.  The `fuel` argument
makes the recursion structural; `buildTree` supplies `limit + 1`, which
the depth guard never exhausts. -/
def buildTreeAux (ch : List Bool → ℕ × ℚ) (limit : ℕ) :
    ℕ → List (List ℚ) → List Bool → ℕ → Node
  | 0, D, _, depth => Node.external D.length depth
  | fuel + 1, D, path, depth =>
    if D.length ≤ 1 ∨ limit ≤ depth ∨ nonZeroCols D = [] then
      Node.external D.length depth
    else
      Node.internal (chosenFeature ch D path) (chosenSplit ch D path) D.length depth
        (buildTreeAux ch limit fuel (leftRows ch D path) (false :: path) (depth + 1))
        (buildTreeAux ch limit fuel (rightRows ch D path) (true :: path) (depth + 1))

/-- Modelled from the spec: build one isolation tree over a subsample,
starting at the root (depth 0). -/
def buildTree (ch : List Bool → ℕ × ℚ) (D : List (List ℚ)) (limit : ℕ) : Node :=
  buildTreeAux ch limit (limit + 1) D [] 0

/-- Modelled from the spec: an `IsolationTree` owns its root node and its
configured depth limit (section 3). -/
structure IsolationTree where
  root : Node
  limit : ℕ

/-- Modelled from the spec: `IsolationTree` construction over a subsample
with a given depth limit. -/
def IsolationTree.build (ch : List Bool → ℕ × ℚ) (D : List (List ℚ)) (limit : ℕ) :
    IsolationTree :=
  ⟨buildTree ch D limit, limit⟩

/-- Modelled from the spec: `TreeScore` (section 4.4) — walk from the
root, descending left on strictly-less and right otherwise, counting one
edge per internal node, and add the tail correction `c(size)` of the
external node reached. -/
noncomputable def pathScore : Node → List ℚ → ℝ
  | Node.external sz _, _ => cVal sz
  | Node.internal fi v _ _ l r, row =>
    1 + (if row.getD fi 0 < v then pathScore l row else pathScore r row)

/-- Modelled from the spec: one prediction record of `predict`
(section 3): `{id, depth, score, is_anomalous}`. -/
structure PredRecord where
  id : ℕ
  depth : ℝ
  score : ℝ
  is_anomalous : Bool

/-- Modelled from the spec: an `IsolationForest` owns its ordered trees,
the subsample size used at build time, the trained feature count, and the
anomaly threshold (sections 3 and 6). -/
structure IsolationForest where
  trees : List IsolationTree
  sampleSize : ℕ
  numFeatures : ℕ
  threshold : ℝ

/-- Modelled from the spec: the canonical anomaly threshold 0.5
(section 4.2). -/
noncomputable def defaultThreshold : ℝ := 1 / 2

/-- Modelled from the spec: the subsample for one tree — the
caller-supplied index stream, restricted to in-range indices, without
replacement (duplicates removed), capped at `sample_size` rows
(section 4.5). -/
def subsampleRows (data : List (List ℚ)) (idxs : List ℕ) (ss : ℕ) : List (List ℚ) :=
  ((dedupFirst (idxs.filter (fun j => decide (j < data.length)))).take ss).map
    (fun j => data.getD j [])

/-- Modelled from the spec: the prediction record for one row
(section 4.5) — the average path length across all trees, the score
`s(average, sample_size)`, and the anomaly flag `score >= threshold`. -/
noncomputable def predictRow (f : IsolationForest) (i : ℕ) (row : List ℚ) : PredRecord :=
  { id := i,
    depth := (f.trees.map (fun t => pathScore t.root row)).sum / (f.trees.length : ℝ),
    score := s ((f.trees.map (fun t => pathScore t.root row)).sum / (f.trees.length : ℝ))
      f.sampleSize,
    is_anomalous :=
      @decide (f.threshold ≤
          s ((f.trees.map (fun t => pathScore t.root row)).sum / (f.trees.length : ℝ))
            f.sampleSize)
        (Classical.propDecidable _) }

/-- Modelled from the spec: `predict` (section 4.5) — fails with a
shape-mismatch error when a row's feature count disagrees with the
trained feature count, and otherwise returns one record per input row, in
input order. -/
noncomputable def IsolationForest.predict (f : IsolationForest) (mat : List (List ℚ)) :
    Except String (List PredRecord) :=
  if mat.all (fun row => decide (row.length = f.numFeatures)) then
    Except.ok ((List.range mat.length).map (fun i => predictRow f i (mat.getD i [])))
  else Except.error "ShapeMismatch: feature count differs from trained feature count"

/-- Modelled from the spec: forest construction (section 4.5) — fails
with an invalid-configuration error for `num_trees <= 0` or
`sample_size <= 1`; otherwise builds `num_trees` trees on independent
subsamples with depth limit `ceil(log2(sample_size))`. -/
noncomputable def buildForest (ch : ℕ → List Bool → ℕ × ℚ) (sampler : ℕ → List ℕ)
    (data : List (List ℚ)) (numTrees sampleSize : ℕ) : Except String IsolationForest :=
  if numTrees = 0 ∨ sampleSize ≤ 1 then
    Except.error "InvalidArgument: num_trees must be positive and sample_size greater than 1"
  else
    Except.ok
      { trees := (List.range numTrees).map (fun i =>
          IsolationTree.build (ch i) (subsampleRows data (sampler i) sampleSize)
            (Nat.clog 2 sampleSize)),
        sampleSize := sampleSize,
        numFeatures := (data.headD []).length,
        threshold := defaultThreshold }

/-- The (n degenerate) real-analysis form of the normalizer on reals,
used to reason uniformly about `cVal` at sizes at least 2. -/
noncomputable def cR (t : ℝ) : ℝ :=
  2 * (Real.log (t - 1) + eulerGamma) - 2 * (t - 1) / t

/-- Standard bound `1 - 1/y <= log y` for positive `y`, from
`log x <= x - 1` applied at `1/y`. -/
lemma log_ge_one_sub_inv {y : ℝ} (hy : 0 < y) : 1 - y⁻¹ ≤ Real.log y := by
  have h := Real.log_le_sub_one_of_pos (inv_pos.mpr hy)
  rw [Real.log_inv] at h
  linarith

/-- The numeric value of the modelled Euler–Mascheroni constant. -/
lemma eulerGamma_ge : (0.577 : ℝ) ≤ eulerGamma := by
  unfold eulerGamma
  norm_num

/-- The real normalizer is non-negative from 2 on. -/
lemma cR_nonneg {x : ℝ} (hx : 2 ≤ x) : 0 ≤ cR x := by
  have hx0 : 0 < x := by linarith
  have hx1 : 0 < x - 1 := by linarith
  have hlog : 1 - (x - 1)⁻¹ ≤ Real.log (x - 1) := log_ge_one_sub_inv hx1
  have e1 : 1 - (x - 1)⁻¹ = (x - 2) / (x - 1) := by
    field_simp
    ring
  have h2 : (x - 2) / x ≤ (x - 2) / (x - 1) := by
    gcongr <;> linarith
  have hA : (x - 2) / x ≤ Real.log (x - 1) := by linarith
  have hB : 2 * ((x - 2) / x) - 2 * ((x - 1) / x) = -(2 / x) := by
    field_simp
    ring
  have hC : 2 / x ≤ 1 := by
    rw [div_le_one hx0]
    linarith
  have hD := eulerGamma_ge
  unfold cR
  have hdiv : 2 * (x - 1) / x = 2 * ((x - 1) / x) := by ring
  rw [hdiv]
  linarith

/-- The real normalizer is monotone from 2 on. -/
lemma cR_mono {x y : ℝ} (hx : 2 ≤ x) (hxy : x ≤ y) : cR x ≤ cR y := by
  have hx0 : 0 < x := by linarith
  have hy0 : 0 < y := by linarith
  have hx1 : 0 < x - 1 := by linarith
  have hy1 : 0 < y - 1 := by linarith
  have hlog : 1 - ((y - 1) / (x - 1))⁻¹ ≤ Real.log ((y - 1) / (x - 1)) :=
    log_ge_one_sub_inv (div_pos hy1 hx1)
  rw [Real.log_div (ne_of_gt hy1) (ne_of_gt hx1)] at hlog
  have einv : ((y - 1) / (x - 1))⁻¹ = (x - 1) / (y - 1) := by
    rw [inv_div]
  have e1 : 1 - (x - 1) / (y - 1) = (y - x) / (y - 1) := by
    field_simp
  have hden : y - 1 ≤ x * y := by nlinarith
  have h2 : (y - x) / (x * y) ≤ (y - x) / (y - 1) := by
    gcongr
    all_goals linarith
  have e2 : 2 / x - 2 / y = 2 * ((y - x) / (x * y)) := by
    field_simp
    ring
  have ex : 2 * (x - 1) / x = 2 - 2 / x := by
    field_simp
    ring
  have ey : 2 * (y - 1) / y = 2 - 2 / y := by
    field_simp
    ring
  unfold cR
  rw [ex, ey]
  rw [einv, e1] at hlog
  linarith

/-- `cVal` agrees with the real normalizer from 2 on. -/
lemma cVal_eq_cR {n : ℕ} (hn : 2 ≤ n) : cVal n = cR (n : ℝ) := by
  unfold cVal cR harmonicApprox
  rw [if_neg (by omega)]
  rw [Nat.cast_sub (by omega : 1 ≤ n)]
  norm_num

/-- The tail-correction value is never negative. -/
lemma cVal_nonneg (n : ℕ) : 0 ≤ cVal n := by
  by_cases h : n ≤ 1
  · unfold cVal
    rw [if_pos h]
  · have h2 : 2 ≤ n := by omega
    rw [cVal_eq_cR h2]
    exact cR_nonneg (by exact_mod_cast h2)

/-- The tail-correction value is monotone from 2 on. -/
lemma cVal_mono {m n : ℕ} (hm : 2 ≤ m) (hmn : m ≤ n) : cVal m ≤ cVal n := by
  rw [cVal_eq_cR hm, cVal_eq_cR (le_trans hm hmn)]
  exact cR_mono (by exact_mod_cast hm) (by exact_mod_cast hmn)

/-- Scores are strictly positive. -/
lemma s_pos (x : ℝ) (n : ℕ) : 0 < s x n :=
  Real.rpow_pos_of_pos (by norm_num) _

/-- Scores of non-negative path lengths are at most one. -/
lemma s_le_one (x : ℝ) (n : ℕ) (hx : 0 ≤ x) : s x n ≤ 1 := by
  unfold s
  apply Real.rpow_le_one_of_one_le_of_nonpos (by norm_num)
  have h : 0 ≤ x / cVal n := div_nonneg hx (cVal_nonneg n)
  linarith

/-- C4: for every integer `n <= 0` the path-length normalizer fails with
the invalid-argument error and returns no value. -/
theorem c_invalid_argument :
    ∀ n : ℤ, n ≤ 0 → c n = Except.error "ValueError: n must be greater than 0" := by
  intro n hn
  unfold c
  rw [if_pos hn]

/-- C4 witness: the normalizer at `n = -5`. -/
theorem c_invalid_argument_witness :
    (-5 : ℤ) ≤ 0 ∧ c (-5) = Except.error "ValueError: n must be greater than 0" :=
  ⟨by decide, c_invalid_argument (-5) (by decide)⟩

/-- C5: for every integer `n > 1` the normalizer returns
`2*H(n-1) - 2*(n-1)/n` with `H(m) = ln(m) + γ`, `c(1)` returns `0`, and
the modelled γ is the spec's `0.5772156649`. -/
theorem c_formula :
    (∀ n : ℤ, 1 < n →
      c n = Except.ok
        (2 * (Real.log ((n : ℝ) - 1) + eulerGamma) - 2 * ((n : ℝ) - 1) / (n : ℝ))) ∧
    c 1 = Except.ok 0 ∧ eulerGamma = 0.5772156649 := by
  refine ⟨?_, ?_, rfl⟩
  · intro n hn
    unfold c
    rw [if_neg (by omega)]
    congr 1
    unfold cVal harmonicApprox
    rw [if_neg (by omega : ¬ n.toNat ≤ 1)]
    have h1 : ((n.toNat : ℕ) : ℝ) = (n : ℝ) := by
      exact_mod_cast Int.toNat_of_nonneg (by omega : 0 ≤ n)
    have h2 : ((n.toNat - 1 : ℕ) : ℝ) = (n : ℝ) - 1 := by
      rw [Nat.cast_sub (by omega : 1 ≤ n.toNat), h1]
      norm_num
    rw [h1, h2]
  · unfold c cVal
    norm_num

/-- C5 witness: the formula evaluated at `n = 2`. -/
theorem c_formula_witness :
    (1 : ℤ) < 2 ∧
    c 2 = Except.ok
      (2 * (Real.log (((2 : ℤ) : ℝ) - 1) + eulerGamma) -
        2 * (((2 : ℤ) : ℝ) - 1) / ((2 : ℤ) : ℝ)) :=
  ⟨by decide, c_formula.1 2 (by decide)⟩

/-- C6: for every integer `n >= 1` the normalizer returns a non-negative
value, and it is monotonically non-decreasing over `n > 1`. -/
theorem c_nonneg_mono :
    (∀ n : ℤ, 1 ≤ n → ∀ v : ℝ, c n = Except.ok v → 0 ≤ v) ∧
    (∀ m n : ℤ, 1 < m → m ≤ n → ∀ u v : ℝ,
      c m = Except.ok u → c n = Except.ok v → u ≤ v) := by
  constructor
  · intro n hn v hv
    unfold c at hv
    rw [if_neg (by omega)] at hv
    injection hv with hv
    rw [← hv]
    exact cVal_nonneg _
  · intro m n hm hmn u v hu hv
    unfold c at hu hv
    rw [if_neg (by omega)] at hu
    rw [if_neg (by omega)] at hv
    injection hu with hu
    injection hv with hv
    rw [← hu, ← hv]
    exact cVal_mono (by omega) (by omega)

/-- C6 witness: non-negativity at `n = 1` and monotonicity from `m = 2`
to `n = 3`. -/
theorem c_nonneg_mono_witness :
    ((1 : ℤ) ≤ 1 ∧ c 1 = Except.ok (cVal 1) ∧ 0 ≤ cVal 1) ∧
    ((1 : ℤ) < 2 ∧ (2 : ℤ) ≤ 3 ∧ c 2 = Except.ok (cVal 2) ∧ c 3 = Except.ok (cVal 3) ∧
      cVal 2 ≤ cVal 3) :=
  ⟨⟨by decide, rfl, c_nonneg_mono.1 1 (by decide) (cVal 1) rfl⟩,
    ⟨by decide, by decide, rfl, rfl,
      c_nonneg_mono.2 2 3 (by decide) (by decide) (cVal 2) (cVal 3) rfl rfl⟩⟩

/-- C7: the anomaly score equals `2^(-x / c(n))`, lies in `(0, 1]` for
non-negative path lengths and every sample size with `c(n)` defined, a
prediction record is marked anomalous exactly when its score reaches the
forest's threshold, and the threshold of every built forest is the
default `0.5`. -/
theorem s_score_contract :
    (∀ (x : ℝ) (n : ℕ), 0 ≤ x → 1 ≤ n → 0 < s x n ∧ s x n ≤ 1) ∧
    (∀ (x : ℝ) (n : ℕ), s x n = (2 : ℝ) ^ (-(x / cVal n))) ∧
    (∀ (f : IsolationForest) (i : ℕ) (row : List ℚ),
      (predictRow f i row).is_anomalous = true ↔
        f.threshold ≤ (predictRow f i row).score) ∧
    (∀ (ch : ℕ → List Bool → ℕ × ℚ) (sampler : ℕ → List ℕ) (data : List (List ℚ))
      (nt ss : ℕ) (f : IsolationForest),
      buildForest ch sampler data nt ss = Except.ok f → f.threshold = defaultThreshold) ∧
    defaultThreshold = 1 / 2 := by
  refine ⟨?_, fun x n => rfl, ?_, ?_, rfl⟩
  · intro x n hx _
    exact ⟨s_pos x n, s_le_one x n hx⟩
  · intro f i row
    exact decide_eq_true_iff
  · intro ch sampler data nt ss f hf
    unfold buildForest at hf
    split at hf
    · exact absurd hf (by simp)
    · injection hf with hf
      rw [← hf]

/-- C7 witness: the score bounds at `x = 0`, `n = 2`, and the default
threshold of a concretely built forest. -/
theorem s_score_contract_witness :
    ((0 : ℝ) ≤ 0 ∧ (1 : ℕ) ≤ 2 ∧ 0 < s 0 2 ∧ s 0 2 ≤ 1) ∧
    (∃ f, buildForest (fun _ _ => (0, 0)) (fun _ => [0, 1]) [[0], [1], [2]] 1 2 =
        Except.ok f ∧ f.threshold = defaultThreshold) := by
  constructor
  · refine ⟨le_refl 0, by decide, ?_, ?_⟩
    · exact (s_score_contract.1 0 2 (le_refl 0) (by decide)).1
    · exact (s_score_contract.1 0 2 (le_refl 0) (by decide)).2
  · exact ⟨_, rfl,
      s_score_contract.2.2.2.1 (fun _ _ => (0, 0)) (fun _ => [0, 1]) [[0], [1], [2]]
        1 2 _ rfl⟩

/-- Path lengths are never negative: each edge contributes 1 and the tail
correction is non-negative. -/
lemma pathScore_nonneg : ∀ (t : Node) (row : List ℚ), 0 ≤ pathScore t row := by
  intro t
  induction t with
  | external sz d =>
    intro row
    exact cVal_nonneg sz
  | internal fi v sz d l r ihl ihr =>
    intro row
    simp only [pathScore]
    by_cases h : row.getD fi 0 < v
    · rw [if_pos h]
      have := ihl row
      linarith
    · rw [if_neg h]
      have := ihr row
      linarith

/-- The score of every prediction record lies in `[0, 1]`: the averaged
path length is non-negative, so `s` stays in `(0, 1]`. -/
lemma predictRow_score_bounds (f : IsolationForest) (i : ℕ) (row : List ℚ) :
    0 ≤ (predictRow f i row).score ∧ (predictRow f i row).score ≤ 1 := by
  have havg : 0 ≤ (f.trees.map (fun t => pathScore t.root row)).sum / (f.trees.length : ℝ) := by
    apply div_nonneg
    · apply List.sum_nonneg
      intro z hz
      rw [List.mem_map] at hz
      obtain ⟨t, _, rfl⟩ := hz
      exact pathScore_nonneg t.root row
    · exact Nat.cast_nonneg _
  exact ⟨le_of_lt (s_pos _ _), s_le_one _ _ havg⟩

/-- C3: for every built forest and every matrix whose rows carry the
trained feature count, `predict` succeeds with exactly one record per
input row, in input order (record `i` is the prediction for row `i` and
carries `id = i`), each record a `{id, depth, score, is_anomalous}`
structure, and every score lies in `[0, 1]`. -/
theorem predict_contract :
    ∀ (ch : ℕ → List Bool → ℕ × ℚ) (sampler : ℕ → List ℕ) (data : List (List ℚ))
      (nt ss : ℕ) (f : IsolationForest),
      buildForest ch sampler data nt ss = Except.ok f →
      ∀ mat : List (List ℚ),
        mat.all (fun row => decide (row.length = f.numFeatures)) = true →
        ∃ out, f.predict mat = Except.ok out ∧ out.length = mat.length ∧
          ∀ i, ∀ hi : i < out.length,
            out[i] = predictRow f i (mat.getD i []) ∧ out[i].id = i ∧
            0 ≤ out[i].score ∧ out[i].score ≤ 1 := by
  intro ch sampler data nt ss f hf mat hshape
  refine ⟨(List.range mat.length).map (fun i => predictRow f i (mat.getD i [])), ?_, ?_, ?_⟩
  · unfold IsolationForest.predict
    rw [if_pos hshape]
  · simp
  · intro i hi
    refine ⟨by simp, by simp [predictRow], ?_, ?_⟩
    · have h := (predictRow_score_bounds f i (mat.getD i [])).1
      simpa using h
    · have h := (predictRow_score_bounds f i (mat.getD i [])).2
      simpa using h

/-- C3 witness: a forest built on a 3-row, 1-column matrix, predicting on
a single matching row. -/
theorem predict_contract_witness :
    ∃ f out,
      buildForest (fun _ _ => (1, 0)) (fun _ => [0, 1]) [[0], [1], [2]] 1 2 =
        Except.ok f ∧
      ([[5]] : List (List ℚ)).all (fun row => decide (row.length = f.numFeatures)) = true ∧
      IsolationForest.predict f [[5]] = Except.ok out ∧ out.length = 1 := by
  have h := predict_contract (fun _ _ => (1, 0)) (fun _ => [0, 1]) [[0], [1], [2]]
    1 2 _ rfl [[5]] (by decide)
  obtain ⟨out, h1, h2, _⟩ := h
  exact ⟨_, out, rfl, by decide, h1, h2⟩

/-- A left fold of `min` never exceeds its start value. -/
lemma foldl_min_le_init (x : ℚ) (xs : List ℚ) : xs.foldl min x ≤ x := by
  induction xs generalizing x with
  | nil => exact le_refl x
  | cons y ys ih => exact le_trans (ih (min x y)) (min_le_left x y)

/-- A left fold of `max` never drops below its start value. -/
lemma init_le_foldl_max (x : ℚ) (xs : List ℚ) : x ≤ xs.foldl max x := by
  induction xs generalizing x with
  | nil => exact le_refl x
  | cons y ys ih => exact le_trans (le_max_left x y) (ih (max x y))

/-- Over a non-empty subset, a column's minimum never exceeds its
maximum. -/
lemma colMin_le_colMax {D : List (List ℚ)} (hD : D ≠ []) (j : ℕ) :
    colMin D j ≤ colMax D j := by
  unfold colMin colMax
  cases hcv : colVals D j with
  | nil =>
    exfalso
    rw [colVals] at hcv
    simp at hcv
    exact hD hcv
  | cons x xs =>
    exact le_trans (foldl_min_le_init x xs) (init_le_foldl_max x xs)

/-- A value clamped into `[lo, hi]` stays inside `[lo, hi]`. -/
lemma split_formula_bounds {lo hi t : ℚ} (h : lo ≤ hi) :
    lo ≤ max lo (min hi t) ∧ max lo (min hi t) ≤ hi :=
  ⟨le_max_left lo _, max_le h (min_le_left hi t)⟩

/-- The chosen split value of a node over a non-empty subset lies within
the observed `[min, max]` of the chosen feature. -/
lemma chosenSplit_bounds (ch : List Bool → ℕ × ℚ) {D : List (List ℚ)}
    (path : List Bool) (hD : D ≠ []) :
    colMin D (chosenFeature ch D path) ≤ chosenSplit ch D path ∧
    chosenSplit ch D path ≤ colMax D (chosenFeature ch D path) := by
  unfold chosenSplit
  exact split_formula_bounds (colMin_le_colMax hD _)

/-- Modelled from the spec invariant (section 3): the relation between a
node and the data subset it was built from — an external node records the
subset's size; an internal node's split value lies within the observed
`[min, max]` of its feature over the subset, and its children stand in the
same relation to the two halves of the strict-less-than partition. -/
inductive TreeOk : List (List ℚ) → Node → Prop where
  | ext (D : List (List ℚ)) (d : ℕ) : TreeOk D (Node.external D.length d)
  | int (D : List (List ℚ)) (fi : ℕ) (v : ℚ) (d : ℕ) (l r : Node)
      (hlo : colMin D fi ≤ v) (hhi : v ≤ colMax D fi)
      (hl : TreeOk (D.filter (fun row => decide (row.getD fi 0 < v))) l)
      (hr : TreeOk (D.filter (fun row => !decide (row.getD fi 0 < v))) r) :
      TreeOk D (Node.internal fi v D.length d l r)

/-- Every tree the builder produces stands in the `TreeOk` relation to
its subset, whatever the choice stream, fuel, path and depth. -/
lemma buildTreeAux_treeOk (ch : List Bool → ℕ × ℚ) (limit : ℕ) :
    ∀ (fuel : ℕ) (D : List (List ℚ)) (path : List Bool) (depth : ℕ),
      TreeOk D (buildTreeAux ch limit fuel D path depth) := by
  intro fuel
  induction fuel with
  | zero =>
    intro D path depth
    exact TreeOk.ext D depth
  | succ fuel ih =>
    intro D path depth
    simp only [buildTreeAux]
    split
    · exact TreeOk.ext D depth
    · rename_i hguard
      have hD : D ≠ [] := by
        intro hnil
        apply hguard
        left
        rw [hnil]
        simp
      exact TreeOk.int D _ _ depth _ _ (chosenSplit_bounds ch path hD).1
        (chosenSplit_bounds ch path hD).2 (ih _ _ _) (ih _ _ _)

/-- No node of a built tree sits deeper than the configured limit, as
long as construction starts at a depth within the limit. -/
lemma buildTreeAux_depth_le (ch : List Bool → ℕ × ℚ) (limit : ℕ) :
    ∀ (fuel : ℕ) (D : List (List ℚ)) (path : List Bool) (depth : ℕ), depth ≤ limit →
      ∀ n ∈ subNodes (buildTreeAux ch limit fuel D path depth), n.depth ≤ limit := by
  intro fuel
  induction fuel with
  | zero =>
    intro D path depth hd n hn
    have hne : n = Node.external D.length depth := by
      simpa [buildTreeAux, subNodes] using hn
    rw [hne]
    exact hd
  | succ fuel ih =>
    intro D path depth hd n hn
    simp only [buildTreeAux] at hn
    split at hn
    · have hne : n = Node.external D.length depth := by
        simpa [subNodes] using hn
      rw [hne]
      exact hd
    · rename_i hguard
      push_neg at hguard
      have hdepth1 : depth + 1 ≤ limit := by omega
      simp only [subNodes, List.mem_cons, List.mem_append] at hn
      rcases hn with hself | hleft | hright
      · rw [hself]
        exact hd
      · exact ih _ _ _ hdepth1 n hleft
      · exact ih _ _ _ hdepth1 n hright

/-- Every tree has at least one external node. -/
lemma countExternal_pos : ∀ n : Node, 0 < countExternal n := by
  intro n
  induction n with
  | external sz d => simp [countExternal]
  | internal fi v sz d l r ihl ihr =>
    simp only [countExternal]
    omega

/-- A tree's node count is the sum of its internal and external counts. -/
lemma countNodes_split : ∀ n : Node, countNodes n = countInternal n + countExternal n := by
  intro n
  induction n with
  | external sz d => rfl
  | internal fi v sz d l r ihl ihr =>
    simp only [countNodes, countInternal, countExternal]
    omega

/-- Internal nodes have exactly two children, external nodes none. -/
lemma node_children_count : ∀ n : Node,
    (n.isInternal = true → (Node.children n).length = 2) ∧
    (n.isInternal = false → Node.children n = []) := by
  intro n
  cases n with
  | external sz d =>
    exact ⟨fun h => absurd h (by simp [Node.isInternal]), fun _ => rfl⟩
  | internal fi v sz d l r =>
    exact ⟨fun _ => rfl, fun h => absurd h (by simp [Node.isInternal])⟩

/-- C8: in every tree produced by construction — over any choice stream,
subsample and limit — every internal node has exactly two children and
every external node has none; the node count equals internal count plus
external count, both positive for a non-trivial build (at least two rows,
a positive depth limit, and some column of non-zero range); every
internal node's split value lies within the observed `[min, max]` of its
feature over the node's subset (the `TreeOk` relation); and no node lies
at a depth exceeding the configured limit — with no exception needed:
the all-identical terminal case also stays within the limit. -/
theorem isolation_tree_invariants :
    ∀ (ch : List Bool → ℕ × ℚ) (D : List (List ℚ)) (limit : ℕ),
      (∀ n ∈ subNodes (buildTree ch D limit),
        (n.isInternal = true → (Node.children n).length = 2) ∧
        (n.isInternal = false → Node.children n = [])) ∧
      countNodes (buildTree ch D limit) =
        countInternal (buildTree ch D limit) + countExternal (buildTree ch D limit) ∧
      (2 ≤ D.length → 1 ≤ limit → nonZeroCols D ≠ [] →
        0 < countInternal (buildTree ch D limit) ∧
        0 < countExternal (buildTree ch D limit)) ∧
      TreeOk D (buildTree ch D limit) ∧
      (∀ n ∈ subNodes (buildTree ch D limit), n.depth ≤ limit) := by
  intro ch D limit
  refine ⟨fun n _ => node_children_count n, countNodes_split _, ?_, ?_, ?_⟩
  · intro h2 hl hnz
    have hroot : buildTree ch D limit =
        Node.internal (chosenFeature ch D []) (chosenSplit ch D []) D.length 0
          (buildTreeAux ch limit limit (leftRows ch D []) [false] 1)
          (buildTreeAux ch limit limit (rightRows ch D []) [true] 1) := by
      unfold buildTree
      simp only [buildTreeAux]
      rw [if_neg]
      push_neg
      exact ⟨by omega, by omega, hnz⟩
    rw [hroot]
    constructor
    · simp only [countInternal]
      omega
    · simp only [countExternal]
      have := countExternal_pos (buildTreeAux ch limit limit (leftRows ch D []) [false] 1)
      omega
  · exact buildTreeAux_treeOk ch limit (limit + 1) D [] 0
  · intro n hn
    exact buildTreeAux_depth_le ch limit (limit + 1) D [] 0 (by omega) n hn

/-- C8 witness: the invariants evaluated on the concrete two-row
one-column subsample `[[0], [1]]` with limit 1 and a fixed choice
stream. -/
theorem isolation_tree_invariants_witness :
    2 ≤ ([[0], [1]] : List (List ℚ)).length ∧ 1 ≤ 1 ∧
    nonZeroCols [[0], [1]] ≠ [] ∧
    (0 < countInternal (buildTree (fun _ => (0, 0)) [[0], [1]] 1) ∧
      0 < countExternal (buildTree (fun _ => (0, 0)) [[0], [1]] 1)) ∧
    Node.external 2 1 ∈ subNodes (buildTree (fun _ => (0, 0)) [[0], [1]] 1) ∧
    Node.depth (Node.external 2 1) ≤ 1 := by
  refine ⟨by decide, by decide, by decide, ?_, by decide, ?_⟩
  · exact (isolation_tree_invariants (fun _ => (0, 0)) [[0], [1]] 1).2.2.1
      (by decide) (by decide) (by decide)
  · exact (isolation_tree_invariants (fun _ => (0, 0)) [[0], [1]] 1).2.2.2.2
      (Node.external 2 1) (by decide)

end Rad
